import Mathlib

/-!
Verification development for the PreferenceAgent repository: a shallow
embedding of the DSL formula compiler (`DataHandler.make_constraints`),
the qualitative/penalty rule parsers and scorers, the feasibility check
and the dominance engine, together with theorems settling the frozen
claims about them.

Conventions of the embedding:
* Python strings are Lean `String`s; `str.split(sep)` (explicit
  separator, keeping empty pieces) is embedded as `pySplit`, a
  fuel-driven structural recursion so that the kernel can evaluate it.
* Python `dict` lookups (`self.values[value]`, raising `KeyError` on a
  missing key) are embedded as `List.lookup` on an association list;
  compilation functions return `Option`/`Except`, `none`/`.error`
  standing for an uncaught Python exception.
* The external SAT oracle (pysat) is embedded by exhaustive enumeration
  over the `2 ^ n` literal vectors of the attribute universe:
  `enum_models` is `Solver.enum_models`, `satCNF` is `Solver.solve`.
* The mutation of `Object.total_penalty` is embedded by explicit state
  passing (`PenaltyLogic.test` returns the updated object).
-/

/-- Generic splitter on lists: splits `l` at every non-overlapping
leftmost occurrence of the (non-empty) separator `sep`, keeping empty
pieces, exactly like Python's `str.split(sep)` with an explicit
separator.  `fuel` bounds the recursion so that the definition is
structural (kernel-computable); `fuel = l.length` always suffices. -/
def splitGo (sep : List Char) : Nat → List Char → List Char → List (List Char)
  | _, [], acc => [acc.reverse]
  | 0, l, acc => [acc.reverse ++ l]
  | fuel + 1, a :: rest, acc =>
      if sep.isPrefixOf (a :: rest) then
        acc.reverse :: splitGo sep fuel (List.drop (sep.length - 1) rest) []
      else
        splitGo sep fuel rest (a :: acc)

/-- Embedding of Python `s.split(sep)` for a non-empty separator `sep`. -/
def pySplit (s : String) (sep : String) : List String :=
  (splitGo sep.data s.data.length s.data []).map String.mk

/-- Embedding of pysat integer literals: a signed 1-based attribute
index. -/
abbrev Lit := Int

/-- Embedding of the state of `DataHandler` after `read_attributes`:
`attributes` is the ordered list of label pairs, `values` the
label-to-bit table (Python dict, embedded as an association list with
pairwise distinct keys, as guaranteed by the globally-unique-label
invariant). -/
structure DataHandler where
  attributes : List (List String)
  values : List (String × Nat)

/-- Embedding of `DataHandler.return_integer`: 1-based index of the
first attribute whose label pair contains `value`, `0` when no
attribute does (the Python loop's `target_integer` default). -/
def return_integer (attributes : List (List String)) (value : String) : Nat :=
  go attributes 1
where
  go : List (List String) → Nat → Nat
    | [], _ => 0
    | item :: rest, idx => if value ∈ item then idx else go rest (idx + 1)

/-- Option-valued map over a list (the effect of a Python `for` loop
whose body may raise), written as plain structural recursion so that
proofs can unfold it equationally and the kernel can evaluate it. -/
def compileEach (f : α → Option β) : List α → Option (List β)
  | [] => some []
  | a :: as => (f a).bind fun b => (compileEach f as).map fun bs => b :: bs

/-- Embedding of one literal token group of `DataHandler.make_constraints`:
`literal.split(" ")` gives the token list; a two-token group is an
explicit negation (label is the second token, sign flipped when the
label's bit is 1), any other group is read as a bare label (label is
the first token, sign flipped when the bit is 0).  `none` embeds the
`KeyError` raised by `self.values[value]` on an unregistered label. -/
def resolveLiteral (dh : DataHandler) (lit : String) : Option Lit :=
  match pySplit lit " " with
  | [_, value] =>
      match List.lookup value dh.values with
      | none => none
      | some bit =>
          let i : Int := Int.ofNat (return_integer dh.attributes value)
          some (if bit = 1 then -i else i)
  | value :: _ =>
      match List.lookup value dh.values with
      | none => none
      | some bit =>
          let i : Int := Int.ofNat (return_integer dh.attributes value)
          some (if bit = 0 then -i else i)
  | [] => none

/-- The value-label a literal token group asserts, mirroring the
branch structure of the source's literal handling: the second token of
an exactly-two-token group (explicit negation), the first token of any
other group.  The empty-token-list case is unreachable (`pySplit`
always returns at least one piece). -/
def assertedLabel (lit : String) : String :=
  match pySplit lit " " with
  | [_, value] => value
  | value :: _ => value
  | [] => ""

/-- Embedding of one `AND`-part of `DataHandler.make_constraints`: the
resolved literals of the `OR`-split together with a flag recording
whether the part had a single literal (such parts are appended to
`clause_list` as fresh singleton lists, multi-literal parts are
appended through the shared mutable `clause` list). -/
def compilePart (dh : DataHandler) (part : String) : Option (Bool × List Lit) :=
  let lits := pySplit part " OR "
  match compileEach (resolveLiteral dh) lits with
  | none => none
  | some ints => some (lits.length == 1, ints)

/-- Embedding of `DataHandler.make_constraints`.  The Python code reuses
one mutable list `clause` for every multi-literal `AND`-part
(`clause.clear()` at the top of the loop, `clause_list.append(clause)`
at the bottom), so every multi-literal part of the returned list
aliases the same object; the value observed by the caller is the final
content of `clause`: the literals of the last part when that part is
multi-literal, and `[]` otherwise (the last iteration clears the list
and the single-literal branch never refills it).  Single-literal parts
append fresh `[integer]` lists and are unaffected. -/
def make_constraints (dh : DataHandler) (line : String) : Option (List (List Lit)) :=
  match compileEach (compilePart dh) (pySplit line " AND ") with
  | none => none
  | some entries =>
      let finalClause : List Lit :=
        match entries.getLast? with
        | some (false, ints) => ints
        | _ => []
      some (entries.map (fun e => if e.1 then e.2 else finalClause))

/-- Concrete handler with four attributes, used for evaluating the
compiler at explicit inputs (`p`,`q`,`r`,`s` are the bit-1 labels of
attributes 1..4, `np`,`nq`,`nr`,`ns` the bit-0 labels). -/
def dh4 : DataHandler :=
  { attributes := [["p", "np"], ["q", "nq"], ["r", "nr"], ["s", "ns"]]
    values := [("p", 1), ("np", 0), ("q", 1), ("nq", 0),
               ("r", 1), ("nr", 0), ("s", 1), ("ns", 0)] }

/-- Embedding of an `Object` (display-only fields dropped): `integers`
is the signed literal vector produced by `make_objects`, and
`total_penalty` the mutable accumulator written by the penalty
scorer. -/
structure Obj where
  name : String
  integers : List Lit
  total_penalty : Nat
deriving DecidableEq

/-- Embedding of `Object.return_test_integers`: one singleton pinning
clause per literal of the object's vector. -/
def pins (o : Obj) : List (List Lit) :=
  o.integers.map (fun i => [i])

/-- All literal vectors over variables `1..n`: position `i` (0-based)
holds `+(i+1)` or `-(i+1)`.  This is the assignment universe of the
SAT oracle over the attribute variables. -/
def allVectors : Nat → List (List Lit)
  | 0 => [[]]
  | n + 1 => (allVectors n).flatMap (fun v => [v ++ [Int.ofNat (n + 1)], v ++ [-(Int.ofNat (n + 1))]])

/-- A literal vector satisfies a clause when one of the clause's
literals occurs in the vector. -/
def satisfiesClause (v : List Lit) (c : List Lit) : Bool :=
  c.any (fun l => v.contains l)

/-- A literal vector satisfies a CNF when it satisfies every clause. -/
def satisfiesCNF (v : List Lit) (cnf : List (List Lit)) : Bool :=
  cnf.all (satisfiesClause v)

/-- Embedding of the SAT oracle's `Solver.enum_models` over the
`n`-variable attribute universe. -/
def enum_models (n : Nat) (cnf : List (List Lit)) : List (List Lit) :=
  (allVectors n).filter (fun v => satisfiesCNF v cnf)

/-- Embedding of the SAT oracle's `Solver.solve` over the `n`-variable
attribute universe. -/
def satCNF (n : Nat) (cnf : List (List Lit)) : Bool :=
  (allVectors n).any (fun v => satisfiesCNF v cnf)

/-- Embedding of `PreferenceProblem.check_feasibility`: keep, in object
order, every object whose literal vector is (element-for-element)
equal to one of the enumerated models. -/
def check_feasibility (models : List (List Lit)) (objects : List Obj) : List Obj :=
  objects.filter (fun o => decide (o.integers ∈ models))

/-- Embedding of `PreferenceProblem.return_feasibility` (the printed
report). -/
def return_feasibility (feasible : List Obj) : String :=
  if feasible.isEmpty then "No feasible objects."
  else "Yes, there are " ++ toString feasible.length ++ " feasible objects."

/-- Embedding of a `PenaltyLogic` rule (the `name` display field is the
raw DSL text; `penalty` the configured penalty value). -/
structure PenaltyLogic where
  name : String
  constraint : List (List Lit)
  penalty : Nat

/-- Applied penalty of `PenaltyLogic.test`: `0` when the rule's clauses
plus the object's pinning clauses are satisfiable, the configured
penalty otherwise. -/
def penalty_applied (n : Nat) (r : PenaltyLogic) (o : Obj) : Nat :=
  if satCNF n (r.constraint ++ pins o) then 0 else r.penalty

/-- Embedding of `PenaltyLogic.test`: returns the applied penalty and,
since both branches call `test_object.add_penalty` with that value,
the object with its `total_penalty` accumulator increased by it. -/
def PenaltyLogic.test (n : Nat) (r : PenaltyLogic) (o : Obj) : Nat × Obj :=
  (penalty_applied n r o,
   { o with total_penalty := o.total_penalty + penalty_applied n r o })

/-- Embedding of the inner loop of
`PreferenceProblem.apply_penalty_logic` for one feasible object: one
`PenaltyLogic.test` invocation per configured rule, threading the
mutated object. -/
def apply_penalty_pass (n : Nat) (rules : List PenaltyLogic) (o : Obj) : Obj :=
  rules.foldl (fun acc r => (PenaltyLogic.test n r acc).2) o

/-- Embedding of a `QualitativeChoiceLogic` rule: `constraints` is the
ordered list of compiled preference tiers, `condition` the optional
compiled condition. -/
structure QualitativeChoiceLogic where
  name : String
  constraints : List (List (List Lit))
  condition : Option (List (List Lit))
deriving DecidableEq

/-- 1-based indices (starting at `s`) of the `true` entries of a
boolean list, in order; embeds the ascending `true_logics` list of
`QualitativeChoiceLogic.test`. -/
def trueIndicesFrom : Nat → List Bool → List Nat
  | _, [] => []
  | s, b :: bs => if b then s :: trueIndicesFrom (s + 1) bs else trueIndicesFrom (s + 1) bs

/-- Embedding of `QualitativeChoiceLogic.test`: per-tier satisfiability
of tier clauses plus pinning clauses, a condition check when a
condition is present, and the branch structure of the Python code
(`min(true_logics)` over the ascending index list, `float('inf')`
embedded as `none`). -/
def QualitativeChoiceLogic.test (n : Nat) (q : QualitativeChoiceLogic) (o : Obj) : Option Nat :=
  let pinCls := pins o
  let tierSat := q.constraints.map (fun tier => satCNF n (tier ++ pinCls))
  let trues := trueIndicesFrom 1 tierSat
  let condVal : Bool :=
    match q.condition with
    | some c => satCNF n (c ++ pinCls)
    | none => false
  if condVal then trues.min?
  else
    match q.condition with
    | some _ => none
    | none => trues.min?

/-- Stored qualitative degree of
`PreferenceProblem.apply_qualitative_choice_logic`: the finite degree
itself, with the sentinel `10000` substituted for `float('inf')`. -/
def storedDegree (n : Nat) (q : QualitativeChoiceLogic) (o : Obj) : Nat :=
  match QualitativeChoiceLogic.test n q o with
  | none => 10000
  | some d => d

/-- Per-object row of `object_qualitative_values`: one stored degree
per qualitative rule, in rule order. -/
def apply_qualitative_values (n : Nat) (rules : List QualitativeChoiceLogic) (o : Obj) :
    List Nat :=
  rules.map (fun q => storedDegree n q o)

/-- Per-index comparison entry of the dominance engine
(`qualitative_exemplification` / `is_optimal_qualitative_object`),
with the source's redundant double condition kept verbatim: `1` when
the first degree is strictly lower, `2` when strictly higher, `0`
otherwise. -/
def degreeBit (x y : Nat) : Nat :=
  if x ≤ y ∧ x < y then 1 else if x ≥ y ∧ x > y then 2 else 0

/-- Embedding of the `satisfaction_comparison` list built by the
dominance engine from two degree vectors (Python indexes the second
vector by the first's indices; for the equal-length vectors the engine
compares, this is `zipWith`). -/
def satisfaction_comparison (a b : List Nat) : List Nat :=
  List.zipWith degreeBit a b

/-- Outcome of one pairwise qualitative comparison. -/
inductive QualOutcome
  | firstPreferred
  | secondPreferred
  | incomparable
  | equal
deriving DecidableEq

/-- Embedding of the branch structure deciding a pairwise qualitative
comparison in `qualitative_exemplification`. -/
def qualitative_comparison_outcome (a b : List Nat) : QualOutcome :=
  let comp := satisfaction_comparison a b
  if 1 ∈ comp then
    if 2 ∈ comp then QualOutcome.incomparable else QualOutcome.firstPreferred
  else if 2 ∈ comp then
    if 1 ∈ comp then QualOutcome.incomparable else QualOutcome.secondPreferred
  else QualOutcome.equal

/-- Embedding of `PreferenceProblem.is_optimal_qualitative_object`:
`v` is the candidate's degree vector, `table` the stored degree vectors
of every feasible object (the Python loop includes the candidate's own
row).  The loop sets `is_optimal = False` exactly when some row has
comparison bit `2` somewhere and bit `1` nowhere. -/
def is_optimal_qualitative_object (v : List Nat) (table : List (List Nat)) : Bool :=
  table.all (fun w =>
    let comp := satisfaction_comparison v w
    if 1 ∈ comp then true
    else if 2 ∈ comp then false
    else true)

/-- Embedding of `re.split(' IF | IF', line)` from
`DataHandler.read_qualitative_logic`: at each position the longer
alternative `' IF '` is tried first, then `' IF'`; on a match the
matched separator is consumed and scanning resumes after it. -/
def reSplitIFAux : List Char → List Char → List (List Char)
  | [], acc => [acc.reverse]
  | ' ' :: 'I' :: 'F' :: ' ' :: rest, acc => acc.reverse :: reSplitIFAux rest []
  | ' ' :: 'I' :: 'F' :: rest, acc => acc.reverse :: reSplitIFAux rest []
  | c :: rest, acc => reSplitIFAux rest (c :: acc)

/-- String-level wrapper for `reSplitIFAux`. -/
def reSplitIF (line : String) : List String :=
  (reSplitIFAux line.data []).map String.mk

/-- Embedding of the per-line body of
`DataHandler.read_qualitative_logic`: split on the `IF` regex, read
`values[1]` (`none` embeds the `IndexError` raised when the line has no
` IF` at all), drop an empty condition, compile the condition exactly
when two pieces remain, and compile the ` BT `-separated tiers in input
order. -/
def parseQualLine (dh : DataHandler) (line : String) : Option QualitativeChoiceLogic :=
  match reSplitIF line with
  | logic :: condition :: rest =>
      let values2 := if condition = "" then logic :: rest else logic :: condition :: rest
      let condRes : Option (Option (List (List Lit))) :=
        match values2 with
        | [_, c] =>
            match make_constraints dh c with
            | none => none
            | some cc => some (some cc)
        | _ => some none
      match condRes with
      | none => none
      | some condC =>
          match compileEach (make_constraints dh) (pySplit logic " BT ") with
          | none => none
          | some tiers => some ⟨line, tiers, condC⟩
  | _ => none

/-- Error raised by `random.sample(population, 2)` when the population
has fewer than two elements (Python `ValueError`), which the
exemplification methods do not catch. -/
inductive SampleError
  | sampleTooLarge
deriving DecidableEq

/-- First sampled position: an arbitrary choice `c.1`, reduced into the
feasible range.  `c` makes the nondeterminism of `random.sample`
explicit; every without-replacement pair is reachable. -/
def sampleFst (len : Nat) (c : Nat × Nat) : Nat :=
  c.1 % len

/-- Second sampled position: a choice among the `len - 1` positions
other than the first, so the two draws are without replacement. -/
def sampleSnd (len : Nat) (c : Nat × Nat) : Nat :=
  let i := c.1 % len
  let j0 := c.2 % (len - 1)
  if i ≤ j0 then j0 + 1 else j0

/-- Preference sentence printed by
`PreferenceProblem.penalty_exemplification` for a sampled pair. -/
def penalty_message (o1 o2 : Obj) : String :=
  if o2.total_penalty < o1.total_penalty then
    "and " ++ o2.name ++ " is strictly preferred over " ++ o1.name ++ "."
  else if o1.total_penalty < o2.total_penalty then
    "and " ++ o1.name ++ " is strictly preferred over " ++ o2.name ++ "."
  else
    o1.name ++ " and " ++ o2.name ++ " are equivalent."

/-- Embedding of `PreferenceProblem.penalty_exemplification`: sample
two feasible objects without replacement (`.error` embeds the uncaught
`ValueError` from `random.sample` when fewer than two exist) and report
the penalty comparison. -/
def penalty_exemplification (feas : List Obj) (c : Nat × Nat) : Except SampleError String :=
  if feas.length < 2 then Except.error SampleError.sampleTooLarge
  else
    match feas.get? (sampleFst feas.length c), feas.get? (sampleSnd feas.length c) with
    | some o1, some o2 => Except.ok (penalty_message o1 o2)
    | _, _ => Except.error SampleError.sampleTooLarge

/-- Preference sentence printed by
`PreferenceProblem.qualitative_exemplification` for a sampled pair,
from the two stored degree vectors. -/
def qualitative_message (d1 d2 : List Nat) (n1 n2 : String) : String :=
  let comp := satisfaction_comparison d1 d2
  if 1 ∈ comp then
    if 2 ∈ comp then "and " ++ n1 ++ " and " ++ n2 ++ " are incomparable."
    else "and " ++ n1 ++ " is strictly preferred over " ++ n2 ++ "."
  else if 2 ∈ comp then
    if 1 ∈ comp then "and " ++ n1 ++ " and " ++ n2 ++ " are incomparable."
    else "and " ++ n2 ++ " is strictly preferred over " ++ n1 ++ "."
  else
    "and " ++ n1 ++ " and " ++ n2 ++ " are equal."

/-- Embedding of `PreferenceProblem.qualitative_exemplification`:
`qvals` is the `object_qualitative_values` table (name-keyed rows of
stored degrees; a missing name leaves the degree list empty, as in the
Python lookup loop). -/
def qualitative_exemplification (feas : List Obj) (qvals : List (String × List Nat))
    (c : Nat × Nat) : Except SampleError String :=
  if feas.length < 2 then Except.error SampleError.sampleTooLarge
  else
    match feas.get? (sampleFst feas.length c), feas.get? (sampleSnd feas.length c) with
    | some o1, some o2 =>
        Except.ok (qualitative_message ((List.lookup o1.name qvals).getD [])
          ((List.lookup o2.name qvals).getD []) o1.name o2.name)
    | _, _ => Except.error SampleError.sampleTooLarge

/-- Tier `k` (0-based) of rule `q` is satisfiable together with the
pinning clauses of object `o`. -/
def tierSatisfiable (n : Nat) (q : QualitativeChoiceLogic) (o : Obj) (k : Nat) : Prop :=
  ∃ tier, q.constraints.get? k = some tier ∧ satCNF n (tier ++ pins o) = true

/-- The spec's description of a satisfaction degree: `some d` is the
minimum 1-based tier index whose clauses plus the pinning clauses are
satisfiable, `none` (+∞) means no tier is satisfiable. -/
def degreeIsMinSatisfiableTier (n : Nat) (q : QualitativeChoiceLogic) (o : Obj) :
    Option Nat → Prop
  | none => ∀ k, ¬ tierSatisfiable n q o k
  | some d => 1 ≤ d ∧ tierSatisfiable n q o (d - 1) ∧ ∀ k, k < d - 1 → ¬ tierSatisfiable n q o k

/-- Modelled from the spec: the per-index dominance comparison over
degrees extended with `+∞` (`none`), where `+∞` sorts as strictly
worse than every finite degree and equal to itself. -/
def specInfinityBit : Option Nat → Option Nat → Nat
  | none, none => 0
  | none, some _ => 2
  | some _, none => 1
  | some a, some b => degreeBit a b

/-- Concrete object over two attributes with both bits set. -/
def objA : Obj := ⟨"o3", [1, 2], 0⟩

/-- Concrete object over two attributes with both bits clear. -/
def objB : Obj := ⟨"o0", [-1, -2], 0⟩

/-- Concrete qualitative rule over two attributes, condition `[[1]]`. -/
def qW1 : QualitativeChoiceLogic := ⟨"w1", [[[1]], [[2]]], some [[1]]⟩

/-- Concrete penalty rule over two attributes. -/
def rW : PenaltyLogic := ⟨"p, 5", [[1]], 5⟩

example : pySplit "p OR q AND r OR s" " AND " = ["p OR q", "r OR s"] := by decide
example : make_constraints dh4 "p AND q" = some [[1], [2]] := by decide
example : make_constraints dh4 "p OR q AND r OR s" = some [[3, 4], [3, 4]] := by decide
example : make_constraints dh4 "p OR q AND r" = some [[], [3]] := by decide
example : make_constraints dh4 "not np" = some [[1]] := by decide
example : satCNF 2 [[1], [-1]] = false := by decide
example : enum_models 2 [[1]] = [[1, 2], [1, -2]] := by decide
example : reSplitIF "p BT q" = ["p BT q"] := by decide
example : reSplitIF "p BT q IF" = ["p BT q", ""] := by decide
example : reSplitIF "p BT q IF r" = ["p BT q", "r"] := by decide
example : parseQualLine dh4 "p BT q" = none := by decide
example : parseQualLine dh4 "p BT q IF" = some ⟨"p BT q IF", [[[1]], [[2]]], none⟩ := by decide
example : parseQualLine dh4 "p BT q IF r" =
    some ⟨"p BT q IF r", [[[1]], [[2]]], some [[3]]⟩ := by decide
example : penalty_exemplification [] (0, 0) = Except.error SampleError.sampleTooLarge := rfl

/-! ### Helper lemmas -/

theorem satCNF_true_iff (n : Nat) (cnf : List (List Lit)) :
    satCNF n cnf = true ↔ ∃ v, v ∈ allVectors n ∧ satisfiesCNF v cnf = true := by
  simp [satCNF, List.any_eq_true]

theorem satCNF_false_iff (n : Nat) (cnf : List (List Lit)) :
    satCNF n cnf = false ↔ ∀ v, v ∈ allVectors n → satisfiesCNF v cnf = false := by
  simp [satCNF, List.any_eq_false]

theorem degreeBit_eq_one (x y : Nat) : degreeBit x y = 1 ↔ x < y := by
  unfold degreeBit; split_ifs <;> simp <;> omega

theorem degreeBit_eq_two (x y : Nat) : degreeBit x y = 2 ↔ y < x := by
  unfold degreeBit; split_ifs <;> simp <;> omega

theorem penalty_applied_update (n : Nat) (r : PenaltyLogic) (o : Obj) (t : Nat) :
    penalty_applied n r { o with total_penalty := t } = penalty_applied n r o := rfl

/-- C1: the compiler's shared mutable `clause` list makes every
multi-literal `AND`-part of the output alias the final clause state:
`"p OR q AND r OR s"` compiles to two copies of `[3, 4]` instead of
`[[1, 2], [3, 4]]`, and `"p OR q AND r"` compiles to an empty first
clause — contradicting one-output-clause-per-part content, non-empty
clauses, and distinct parts mapping to distinct content. -/
theorem C1_compiler_clause_aliasing :
    make_constraints dh4 "p OR q AND r OR s" = some [[3, 4], [3, 4]]
  ∧ make_constraints dh4 "p OR q AND r" = some [[], [3]] :=
  ⟨by decide, by decide⟩

/-- C7: a bare registered label compiles to the one-clause formula
`[[+i]]` when its registered bit is 1 and `[[-i]]` when its bit is 0,
and the explicitly negated two-token form of the same label compiles to
the clause with the opposite sign. -/
theorem C7_single_literal_roundtrip (dh : DataHandler) (x s t : String) (i bit : Nat)
    (hxA : pySplit x " AND " = [x]) (hxO : pySplit x " OR " = [x])
    (hxS : pySplit x " " = [x])
    (hsA : pySplit s " AND " = [s]) (hsO : pySplit s " OR " = [s])
    (hsS : pySplit s " " = [t, x])
    (hidx : return_integer dh.attributes x = i)
    (hbit : List.lookup x dh.values = some bit) :
    (bit = 1 → make_constraints dh x = some [[(i : Int)]]
             ∧ make_constraints dh s = some [[-(i : Int)]])
  ∧ (bit = 0 → make_constraints dh x = some [[-(i : Int)]]
             ∧ make_constraints dh s = some [[(i : Int)]]) := by
  constructor
  · rintro rfl
    constructor
    · simp [make_constraints, compileEach, compilePart, resolveLiteral, hxA, hxO, hxS, hidx, hbit]
    · simp [make_constraints, compileEach, compilePart, resolveLiteral, hsA, hsO, hsS, hidx, hbit]
  · rintro rfl
    constructor
    · simp [make_constraints, compileEach, compilePart, resolveLiteral, hxA, hxO, hxS, hidx, hbit]
    · simp [make_constraints, compileEach, compilePart, resolveLiteral, hsA, hsO, hsS, hidx, hbit]

/-- Witness for C7 at the concrete handler `dh4`: label `p` has bit 1
and index 1, label `np` has bit 0 and index 1. -/
theorem C7_single_literal_roundtrip_witness :
    (make_constraints dh4 "p" = some [[(1 : Int)]]
       ∧ make_constraints dh4 "not p" = some [[-(1 : Int)]])
  ∧ (make_constraints dh4 "np" = some [[-(1 : Int)]]
       ∧ make_constraints dh4 "not np" = some [[(1 : Int)]]) :=
  ⟨(C7_single_literal_roundtrip dh4 "p" "not p" "not" 1 1 (by decide) (by decide)
      (by decide) (by decide) (by decide) (by decide) (by decide) (by decide)).1 rfl,
   (C7_single_literal_roundtrip dh4 "np" "not np" "not" 1 0 (by decide) (by decide)
      (by decide) (by decide) (by decide) (by decide) (by decide) (by decide)).2 rfl⟩

/-- C9 counterexample: a literal token group with three
space-separated parts is not rejected — compilation succeeds, reading
the group as a bare literal of its first token, so no
`MalformedClauseError` (which the source does not define) is raised and
compilation is not aborted. -/
theorem C9_counterexample_three_token_literal :
    make_constraints dh4 "p np x" = some [[(1 : Int)]]
  ∧ make_constraints dh4 "p np x" ≠ none :=
  ⟨by decide, by decide⟩

theorem compileEach_eq_none (f : α → Option β) :
    ∀ (l : List α) (a : α), a ∈ l → f a = none → compileEach f l = none := by
  intro l
  induction l with
  | nil => intro a ha; cases ha
  | cons b bs ih =>
      intro a ha hfa
      rcases List.mem_cons.mp ha with rfl | hmem
      · simp [compileEach, hfa]
      · cases hfb : f b with
        | none => simp [compileEach, hfb]
        | some v => simp [compileEach, hfb, ih a hmem hfa]

theorem compileEach_ne_none (f : α → Option β) :
    ∀ l : List α, (∀ a ∈ l, f a ≠ none) → compileEach f l ≠ none := by
  intro l
  induction l with
  | nil => intro _; simp [compileEach]
  | cons b bs ih =>
      intro h
      cases hfb : f b with
      | none => exact absurd hfb (h b (by simp))
      | some v =>
          cases hcs : compileEach f bs with
          | none => exact absurd hcs (ih (fun a ha => h a (by simp [ha])))
          | some vs => simp [compileEach, hfb, hcs]

theorem resolveLiteral_eq_none (dh : DataHandler) (lit : String)
    (h : List.lookup (assertedLabel lit) dh.values = none) :
    resolveLiteral dh lit = none := by
  unfold assertedLabel at h
  unfold resolveLiteral
  rcases hsp : pySplit lit " " with _ | ⟨t1, _ | ⟨t2, _ | ⟨t3, rest⟩⟩⟩
  · rfl
  · rw [hsp] at h
    have h2 : List.lookup t1 dh.values = none := h
    simp only [h2]
  · rw [hsp] at h
    have h2 : List.lookup t2 dh.values = none := h
    simp only [h2]
  · rw [hsp] at h
    have h2 : List.lookup t1 dh.values = none := h
    simp only [h2]

theorem compilePart_eq_none (dh : DataHandler) (part lit : String)
    (hmem : lit ∈ pySplit part " OR ") (hres : resolveLiteral dh lit = none) :
    compilePart dh part = none := by
  have h := compileEach_eq_none (resolveLiteral dh) (pySplit part " OR ") lit hmem hres
  simp [compilePart, h]

theorem compilePart_ne_none (dh : DataHandler) (part : String)
    (h : ∀ lit ∈ pySplit part " OR ", resolveLiteral dh lit ≠ none) :
    compilePart dh part ≠ none := by
  have hce := compileEach_ne_none (resolveLiteral dh) (pySplit part " OR ") h
  cases hcs : compileEach (resolveLiteral dh) (pySplit part " OR ") with
  | none => exact absurd hcs hce
  | some ints => simp [compilePart, hcs]

/-- C9 amended: in any formula, a literal whose asserted label was
never registered aborts compilation of the whole formula (the uncaught
`KeyError` from the bit-table lookup, embedded as `none`); a literal
token group with more than two space-separated parts is never an error
in itself — it resolves exactly as a bare literal of its first token —
and a formula all of whose literals resolve compiles, so token arity
alone never aborts compilation. -/
theorem C9_amended_error_behavior :
    (∀ (dh : DataHandler) (line part lit : String),
        part ∈ pySplit line " AND " → lit ∈ pySplit part " OR " →
        List.lookup (assertedLabel lit) dh.values = none →
        make_constraints dh line = none)
  ∧ (∀ (dh : DataHandler) (lit t1 t2 t3 : String) (rest : List String),
        pySplit lit " " = t1 :: t2 :: t3 :: rest →
        resolveLiteral dh lit
          = Option.map (fun bit =>
              if bit = 0 then -(Int.ofNat (return_integer dh.attributes t1))
              else Int.ofNat (return_integer dh.attributes t1))
            (List.lookup t1 dh.values))
  ∧ (∀ (dh : DataHandler) (line : String),
        (∀ part ∈ pySplit line " AND ", ∀ lit ∈ pySplit part " OR ",
            resolveLiteral dh lit ≠ none) →
        make_constraints dh line ≠ none) := by
  refine ⟨fun dh line part lit hpart hlit hlk => ?_,
    fun dh lit t1 t2 t3 rest hsp => ?_, fun dh line hall => ?_⟩
  · have hres := resolveLiteral_eq_none dh lit hlk
    have hcp := compilePart_eq_none dh part lit hlit hres
    have hce := compileEach_eq_none (compilePart dh) (pySplit line " AND ") part hpart hcp
    simp [make_constraints, hce]
  · unfold resolveLiteral
    rw [hsp]
    cases hlk : List.lookup t1 dh.values <;> simp [hlk]
  · have hparts : ∀ part ∈ pySplit line " AND ", compilePart dh part ≠ none :=
      fun part hp => compilePart_ne_none dh part (hall part hp)
    have hce := compileEach_ne_none (compilePart dh) (pySplit line " AND ") hparts
    cases hcs : compileEach (compilePart dh) (pySplit line " AND ") with
    | none => exact absurd hcs hce
    | some entries => simp [make_constraints, hcs]

/-- Witness for C9 amended at `dh4`: the unregistered label `zz` inside
the two-clause formula `"q AND zz"` aborts compilation; the four-token
group `"p np x y"` resolves as the bare literal of its first token `p`;
and the two-clause formula `"p OR q AND r np x"`, whose second clause
holds a three-token group, compiles without error. -/
theorem C9_amended_error_behavior_witness :
    make_constraints dh4 "q AND zz" = none
  ∧ resolveLiteral dh4 "p np x y"
      = Option.map (fun bit =>
          if bit = 0 then -(Int.ofNat (return_integer dh4.attributes "p"))
          else Int.ofNat (return_integer dh4.attributes "p"))
        (List.lookup "p" dh4.values)
  ∧ make_constraints dh4 "p OR q AND r np x" ≠ none :=
  ⟨C9_amended_error_behavior.1 dh4 "q AND zz" "zz" "zz" (by decide) (by decide) (by decide),
   C9_amended_error_behavior.2.1 dh4 "p np x y" "p" "np" "x" ["y"] (by decide),
   C9_amended_error_behavior.2.2 dh4 "p OR q AND r np x" (by decide)⟩

/-- C3 counterexample: a qualitative rule line with no ` IF` marker at
all does not parse — `re.split(' IF | IF', line)` returns a single
piece and the unconditional read of `values[1]` raises `IndexError`
(embedded as `none`), so parsing does not succeed without a trailing
`IF`. -/
theorem C3_counterexample_no_if_marker :
    parseQualLine dh4 "p BT q" = none := by decide

/-- C3 amended: a qualitative rule line parses with a trailing
`IF condition` and with a trailing bare ` IF` (empty condition): the
bare-`IF` form yields a rule with no condition and the ` BT `-separated
tiers compiled in best-to-worst input order, the `IF condition` form
yields the same tiers plus the compiled condition, and a line with no
` IF` marker at all fails to parse (an uncaught `IndexError`). -/
theorem C3_amended_qualitative_parsing (dh : DataHandler) (line logic : String) :
    (reSplitIF line = [logic, ""] →
        parseQualLine dh line
          = Option.map (fun tiers => QualitativeChoiceLogic.mk line tiers none)
              (compileEach (make_constraints dh) (pySplit logic " BT ")))
  ∧ (∀ cond, cond ≠ "" → reSplitIF line = [logic, cond] →
        parseQualLine dh line
          = match make_constraints dh cond with
            | none => none
            | some cc =>
                Option.map (fun tiers => QualitativeChoiceLogic.mk line tiers (some cc))
                  (compileEach (make_constraints dh) (pySplit logic " BT ")))
  ∧ (reSplitIF line = [logic] → parseQualLine dh line = none) := by
  refine ⟨fun h => ?_, fun cond hc h => ?_, fun h => ?_⟩
  · rw [parseQualLine, h]
    simp only [if_pos rfl]
    cases hmo : compileEach (make_constraints dh) (pySplit logic " BT ") <;> simp
  · rw [parseQualLine, h]
    simp only [if_neg hc]
    cases hcc : make_constraints dh cond <;>
      cases hmo : compileEach (make_constraints dh) (pySplit logic " BT ") <;> simp
  · rw [parseQualLine, h]

/-- Witness for C3 amended at `dh4`: `"p BT q IF"` parses with no
condition, `"p BT q IF r"` parses with compiled condition `[[3]]`, and
`"p BT q"` fails. -/
theorem C3_amended_qualitative_parsing_witness :
    parseQualLine dh4 "p BT q IF"
      = Option.map (fun tiers => QualitativeChoiceLogic.mk "p BT q IF" tiers none)
          (compileEach (make_constraints dh4) (pySplit "p BT q" " BT "))
  ∧ parseQualLine dh4 "p BT q IF r"
      = (match make_constraints dh4 "r" with
        | none => none
        | some cc =>
            Option.map (fun tiers => QualitativeChoiceLogic.mk "p BT q IF r" tiers (some cc))
              (compileEach (make_constraints dh4) (pySplit "p BT q" " BT ")))
  ∧ parseQualLine dh4 "p BT q" = none :=
  ⟨(C3_amended_qualitative_parsing dh4 "p BT q IF" "p BT q").1 (by decide),
   (C3_amended_qualitative_parsing dh4 "p BT q IF r" "p BT q").2.1 "r" (by decide) (by decide),
   (C3_amended_qualitative_parsing dh4 "p BT q" "p BT q").2.2 (by decide)⟩

/-- C4: an object is placed in the feasible set exactly when it is one
of the problem's objects and its literal vector is element-for-element
equal to one of the models enumerated by the SAT oracle for the hard
constraints; when the hard constraints are unsatisfiable the feasible
set is empty and the feasibility report reads "No feasible objects."
rather than raising an error. -/
theorem C4_feasibility_membership (n : Nat) (cnf : List (List Lit))
    (objects : List Obj) (o : Obj) :
    (o ∈ check_feasibility (enum_models n cnf) objects ↔
        o ∈ objects ∧ o.integers ∈ enum_models n cnf)
  ∧ (satCNF n cnf = false →
        check_feasibility (enum_models n cnf) objects = []
      ∧ return_feasibility (check_feasibility (enum_models n cnf) objects)
          = "No feasible objects.") := by
  constructor
  · simp [check_feasibility, List.mem_filter]
  · intro hunsat
    have hmodels : enum_models n cnf = [] := by
      rw [enum_models, List.filter_eq_nil_iff]
      intro v hv
      simpa using (satCNF_false_iff n cnf).mp hunsat v hv
    have hfeas : check_feasibility (enum_models n cnf) objects = [] := by
      rw [hmodels, check_feasibility, List.filter_eq_nil_iff]
      intro o ho
      simp
    exact ⟨hfeas, by rw [hfeas]; rfl⟩

/-- Witness for C4 over two attributes with the unsatisfiable hard
constraints `[[1], [-1]]` and the satisfiable constraints `[[1]]`. -/
theorem C4_feasibility_membership_witness :
    (objA ∈ check_feasibility (enum_models 2 [[1]]) [objA, objB] ↔
        objA ∈ [objA, objB] ∧ objA.integers ∈ enum_models 2 [[1]])
  ∧ (check_feasibility (enum_models 2 [[1], [-1]]) [objA, objB] = []
      ∧ return_feasibility (check_feasibility (enum_models 2 [[1], [-1]]) [objA, objB])
          = "No feasible objects.") :=
  ⟨(C4_feasibility_membership 2 [[1]] [objA, objB] objA).1,
   (C4_feasibility_membership 2 [[1], [-1]] [objA, objB] objA).2 (by decide)⟩

theorem apply_penalty_pass_total (n : Nat) (rules : List PenaltyLogic) :
    ∀ o : Obj, (apply_penalty_pass n rules o).total_penalty
      = o.total_penalty + (rules.map (fun r => penalty_applied n r o)).sum := by
  induction rules with
  | nil => intro o; simp [apply_penalty_pass]
  | cons r rs ih =>
      intro o
      simp only [apply_penalty_pass, List.foldl_cons] at *
      rw [ih]
      simp only [PenaltyLogic.test, penalty_applied_update, List.map_cons, List.sum_cons]
      omega

/-- C5: the penalty scorer returns 0 exactly when the rule's clauses
conjoined with the object's singleton pinning clauses are satisfiable
and the configured penalty when they are unsatisfiable; each invocation
adds the returned value to the object's `totalPenalty` accumulator, one
construction pass over all rules leaves `totalPenalty` equal to the sum
of the applied penalties, and a second invocation on the same
(rule, object) pair double-counts. -/
theorem C5_penalty_scoring (n : Nat) (rules : List PenaltyLogic) (r : PenaltyLogic)
    (o : Obj) (h0 : o.total_penalty = 0) :
    ((∃ v, v ∈ allVectors n ∧ satisfiesCNF v (r.constraint ++ pins o) = true) →
        (PenaltyLogic.test n r o).1 = 0)
  ∧ ((∀ v, v ∈ allVectors n → satisfiesCNF v (r.constraint ++ pins o) = false) →
        (PenaltyLogic.test n r o).1 = r.penalty)
  ∧ (PenaltyLogic.test n r o).2.total_penalty
      = o.total_penalty + (PenaltyLogic.test n r o).1
  ∧ (apply_penalty_pass n rules o).total_penalty
      = (rules.map (fun ru => (PenaltyLogic.test n ru o).1)).sum
  ∧ (PenaltyLogic.test n r ((PenaltyLogic.test n r o).2)).2.total_penalty
      = o.total_penalty + 2 * (PenaltyLogic.test n r o).1 := by
  refine ⟨fun hsat => ?_, fun hunsat => ?_, rfl, ?_, ?_⟩
  · have : satCNF n (r.constraint ++ pins o) = true := (satCNF_true_iff _ _).mpr hsat
    simp [PenaltyLogic.test, penalty_applied, this]
  · have : satCNF n (r.constraint ++ pins o) = false := (satCNF_false_iff _ _).mpr hunsat
    simp [PenaltyLogic.test, penalty_applied, this]
  · rw [apply_penalty_pass_total, h0]
    simp [PenaltyLogic.test]
  · show (PenaltyLogic.test n r o).2.total_penalty + penalty_applied n r _ = _
    rw [penalty_applied_update]
    show o.total_penalty + penalty_applied n r o + penalty_applied n r o = _
    have hfst : (PenaltyLogic.test n r o).1 = penalty_applied n r o := rfl
    rw [hfst]
    omega

/-- Witness for C5 with the concrete rule `rW` (clauses `[[1]]`,
penalty 5) and object `objB` (vector `[-1, -2]`), whose pinned formula
is unsatisfiable. -/
theorem C5_penalty_scoring_witness :
    (PenaltyLogic.test 2 rW objB).1 = rW.penalty
  ∧ (apply_penalty_pass 2 [rW] objB).total_penalty
      = ([rW].map (fun ru => (PenaltyLogic.test 2 ru objB).1)).sum
  ∧ (PenaltyLogic.test 2 rW ((PenaltyLogic.test 2 rW objB).2)).2.total_penalty
      = objB.total_penalty + 2 * (PenaltyLogic.test 2 rW objB).1 := by
  have h := C5_penalty_scoring 2 [rW] rW objB rfl
  exact ⟨h.2.1 (by decide), h.2.2.2.1, h.2.2.2.2⟩

theorem trueIndicesFrom_ge (bs : List Bool) : ∀ s x : Nat, x ∈ trueIndicesFrom s bs → s ≤ x := by
  induction bs with
  | nil => intro s x h; simp [trueIndicesFrom] at h
  | cons b bs ih =>
      intro s x h
      cases b with
      | false =>
          simp only [trueIndicesFrom, Bool.false_eq_true, if_false] at h
          have := ih (s + 1) x h
          omega
      | true =>
          simp only [trueIndicesFrom, if_true, List.mem_cons] at h
          rcases h with h1 | h1
          · omega
          · have := ih (s + 1) x h1
            omega

theorem foldl_min_eq (l : List Nat) : ∀ a : Nat, (∀ x ∈ l, a ≤ x) → l.foldl min a = a := by
  induction l with
  | nil => intro a _; rfl
  | cons x l ih =>
      intro a h
      rw [List.foldl_cons, Nat.min_eq_left (h x (by simp))]
      exact ih a (fun y hy => h y (by simp [hy]))

theorem min?_trueIndicesFrom (bs : List Bool) : ∀ s : Nat,
    (trueIndicesFrom s bs).min? = (trueIndicesFrom s bs).head? := by
  induction bs with
  | nil => intro s; rfl
  | cons b bs ih =>
      intro s
      cases b with
      | false =>
          show (trueIndicesFrom (s + 1) bs).min? = (trueIndicesFrom (s + 1) bs).head?
          exact ih (s + 1)
      | true =>
          show (s :: trueIndicesFrom (s + 1) bs).min?
            = (s :: trueIndicesFrom (s + 1) bs).head?
          simp only [List.min?, List.head?]
          exact congrArg some (foldl_min_eq _ s (fun x hx =>
            Nat.le_of_succ_le (trueIndicesFrom_ge bs (s + 1) x hx)))

theorem head?_trueIndicesFrom (bs : List Bool) : ∀ s d : Nat,
    ((trueIndicesFrom s bs).head? = some d ↔
      ∃ j, bs.get? j = some true ∧ d = s + j ∧ ∀ k, k < j → bs.get? k = some false) := by
  induction bs with
  | nil => intro s d; simp [trueIndicesFrom]
  | cons b bs ih =>
      intro s d
      cases b with
      | true =>
          show ((s :: trueIndicesFrom (s + 1) bs).head? = some d ↔ _)
          simp only [List.head?, Option.some.injEq]
          constructor
          · rintro rfl
            exact ⟨0, rfl, by omega, fun k hk => absurd hk (Nat.not_lt_zero k)⟩
          · rintro ⟨j, hj, hd, hmin⟩
            cases j with
            | zero => omega
            | succ j' =>
                have h0 := hmin 0 (Nat.succ_pos j')
                simp at h0
      | false =>
          show ((trueIndicesFrom (s + 1) bs).head? = some d ↔ _)
          rw [ih (s + 1) d]
          constructor
          · rintro ⟨j, hj, hd, hmin⟩
            refine ⟨j + 1, by simpa using hj, by omega, fun k hk => ?_⟩
            cases k with
            | zero => rfl
            | succ k' => simpa using hmin k' (by omega)
          · rintro ⟨j, hj, hd, hmin⟩
            cases j with
            | zero => simp at hj
            | succ j' =>
                refine ⟨j', by simpa using hj, by omega, fun k hk => ?_⟩
                simpa using hmin (k + 1) (by omega)

theorem trueIndicesFrom_eq_nil_iff (bs : List Bool) : ∀ s : Nat,
    (trueIndicesFrom s bs = [] ↔ ∀ j, bs.get? j ≠ some true) := by
  induction bs with
  | nil => intro s; simp [trueIndicesFrom]
  | cons b bs ih =>
      intro s
      cases b with
      | true =>
          show (s :: trueIndicesFrom (s + 1) bs = [] ↔ _)
          constructor
          · intro h
            simp at h
          · intro h
            have := h 0
            simp at this
      | false =>
          show (trueIndicesFrom (s + 1) bs = [] ↔ _)
          rw [ih (s + 1)]
          constructor
          · intro h j
            cases j with
            | zero => simp
            | succ j' => simpa using h j'
          · intro h j
            simpa using h (j + 1)

theorem min?_eq_none_iff_nil (l : List Nat) : l.min? = none ↔ l = [] := by
  cases l <;> simp [List.min?]

theorem min?_trues_characterization (n : Nat) (q : QualitativeChoiceLogic) (o : Obj) :
    degreeIsMinSatisfiableTier n q o
      ((trueIndicesFrom 1 (q.constraints.map (fun tier => satCNF n (tier ++ pins o)))).min?) := by
  set bs := q.constraints.map (fun tier => satCNF n (tier ++ pins o)) with hbs
  cases hm : (trueIndicesFrom 1 bs).min? with
  | none =>
      simp only [degreeIsMinSatisfiableTier]
      intro k hk
      rw [min?_eq_none_iff_nil] at hm
      have hall := (trueIndicesFrom_eq_nil_iff bs 1).mp hm
      obtain ⟨tier, hget, hsat⟩ := hk
      have hbk : bs.get? k = some true := by
        rw [hbs, List.get?_map, hget]
        simp [hsat]
      exact hall k hbk
  | some d =>
      have hh : (trueIndicesFrom 1 bs).head? = some d := by
        rw [← min?_trueIndicesFrom]; exact hm
      obtain ⟨j, hj, hd, hmin⟩ := (head?_trueIndicesFrom bs 1 d).mp hh
      simp only [degreeIsMinSatisfiableTier]
      refine ⟨by omega, ?_, ?_⟩
      · rw [hbs, List.get?_map] at hj
        cases hget : q.constraints.get? j with
        | none => rw [hget] at hj; simp at hj
        | some tier =>
            rw [hget] at hj
            simp only [Option.map_some'] at hj
            have hdj : d - 1 = j := by omega
            rw [hdj]
            exact ⟨tier, hget, by simpa using hj⟩
      · intro k hk hsatk
        obtain ⟨tier, hget, hsat⟩ := hsatk
        have hbk : bs.get? k = some true := by
          rw [hbs, List.get?_map, hget]
          simp [hsat]
        have hfalse := hmin k (by omega)
        rw [hbk] at hfalse
        simp at hfalse

/-- C2: the satisfaction degree of a qualitative rule on an object is
the minimum 1-based satisfiable tier (`+∞`/`none` when no tier is
satisfiable) when the rule's condition is present and satisfiable
under the object's pinning, `+∞` outright when the condition is present
but unsatisfiable, and the minimum satisfiable tier again when the rule
has no condition. -/
theorem C2_qualitative_degree (n : Nat) (q : QualitativeChoiceLogic) (o : Obj) :
    (∀ c, q.condition = some c → satCNF n (c ++ pins o) = true →
        degreeIsMinSatisfiableTier n q o (QualitativeChoiceLogic.test n q o))
  ∧ (∀ c, q.condition = some c → satCNF n (c ++ pins o) = false →
        QualitativeChoiceLogic.test n q o = none)
  ∧ (q.condition = none →
        degreeIsMinSatisfiableTier n q o (QualitativeChoiceLogic.test n q o)) := by
  refine ⟨fun c hc hsat => ?_, fun c hc hunsat => ?_, fun hc => ?_⟩
  · have ht : QualitativeChoiceLogic.test n q o
        = (trueIndicesFrom 1 (q.constraints.map (fun tier => satCNF n (tier ++ pins o)))).min? := by
      simp only [QualitativeChoiceLogic.test, hc, hsat, if_true]
    rw [ht]
    exact min?_trues_characterization n q o
  · simp only [QualitativeChoiceLogic.test, hc, hunsat, Bool.false_eq_true, if_false]
  · have ht : QualitativeChoiceLogic.test n q o
        = (trueIndicesFrom 1 (q.constraints.map (fun tier => satCNF n (tier ++ pins o)))).min? := by
      simp only [QualitativeChoiceLogic.test, hc, Bool.false_eq_true, if_false]
    rw [ht]
    exact min?_trues_characterization n q o

/-- Witness for C2 with the concrete rule `qW1` (tiers `[[1]]`, `[[2]]`,
condition `[[1]]`) on objects `objA` (condition holds) and `objB`
(condition fails). -/
theorem C2_qualitative_degree_witness :
    degreeIsMinSatisfiableTier 2 qW1 objA (QualitativeChoiceLogic.test 2 qW1 objA)
  ∧ QualitativeChoiceLogic.test 2 qW1 objB = none :=
  ⟨(C2_qualitative_degree 2 qW1 objA).1 [[1]] rfl (by decide),
   (C2_qualitative_degree 2 qW1 objB).2.1 [[1]] rfl (by decide)⟩

theorem min?_trueIndicesFrom_bounds (bs : List Bool) (d : Nat)
    (h : (trueIndicesFrom 1 bs).min? = some d) : 1 ≤ d ∧ d ≤ bs.length := by
  rw [min?_trueIndicesFrom] at h
  obtain ⟨j, hj, hd, _⟩ := (head?_trueIndicesFrom bs 1 d).mp h
  have hlt : j < bs.length := by
    by_contra hge
    rw [List.get?_eq_none.mpr (by omega)] at hj
    cases hj
  omega

theorem test_some_bounds (n : Nat) (q : QualitativeChoiceLogic) (o : Obj) (d : Nat)
    (h : QualitativeChoiceLogic.test n q o = some d) :
    1 ≤ d ∧ d ≤ q.constraints.length := by
  simp only [QualitativeChoiceLogic.test] at h
  split at h
  · have := min?_trueIndicesFrom_bounds _ d h
    simpa using this
  · split at h
    · cases h
    · have := min?_trueIndicesFrom_bounds _ d h
      simpa using this

theorem storedDegree_bit_spec (n : Nat) (q : QualitativeChoiceLogic)
    (hq : q.constraints.length < 10000) (o1 o2 : Obj) :
    degreeBit (storedDegree n q o1) (storedDegree n q o2)
      = specInfinityBit (QualitativeChoiceLogic.test n q o1)
          (QualitativeChoiceLogic.test n q o2) := by
  cases h1 : QualitativeChoiceLogic.test n q o1 with
  | none =>
      cases h2 : QualitativeChoiceLogic.test n q o2 with
      | none =>
          simp only [storedDegree, h1, h2, specInfinityBit]
          decide
      | some d2 =>
          have hb := test_some_bounds n q o2 d2 h2
          simp only [storedDegree, h1, h2, specInfinityBit]
          exact (degreeBit_eq_two _ _).mpr (by omega)
  | some d1 =>
      cases h2 : QualitativeChoiceLogic.test n q o2 with
      | none =>
          have hb := test_some_bounds n q o1 d1 h1
          simp only [storedDegree, h1, h2, specInfinityBit]
          exact (degreeBit_eq_one _ _).mpr (by omega)
      | some d2 =>
          simp only [storedDegree, h1, h2, specInfinityBit]

/-- C8: every stored qualitative degree is either a genuine 1-based
tier index of its rule (at most the rule's tier count) or the finite
sentinel 10000 substituted for `+∞`; and when every rule has fewer than
10000 tiers, the per-index dominance comparison on stored degrees
coincides exactly with the spec's `+∞` semantics, entry by entry, over
whole degree vectors. -/
theorem C8_sentinel_invariant (n : Nat) (q : QualitativeChoiceLogic) (o1 o2 : Obj)
    (h : q.constraints.length < 10000) :
    (storedDegree n q o1 = 10000 ∨
       (1 ≤ storedDegree n q o1 ∧ storedDegree n q o1 ≤ q.constraints.length
          ∧ storedDegree n q o1 < 10000))
  ∧ degreeBit (storedDegree n q o1) (storedDegree n q o2)
      = specInfinityBit (QualitativeChoiceLogic.test n q o1)
          (QualitativeChoiceLogic.test n q o2)
  ∧ ∀ (rules : List QualitativeChoiceLogic) (oA oB : Obj),
      (∀ r ∈ rules, r.constraints.length < 10000) →
      satisfaction_comparison (apply_qualitative_values n rules oA)
          (apply_qualitative_values n rules oB)
        = List.zipWith specInfinityBit
            (rules.map (fun r => QualitativeChoiceLogic.test n r oA))
            (rules.map (fun r => QualitativeChoiceLogic.test n r oB)) := by
  refine ⟨?_, storedDegree_bit_spec n q h o1 o2, ?_⟩
  · cases ht : QualitativeChoiceLogic.test n q o1 with
    | none =>
        left
        simp [storedDegree, ht]
    | some d =>
        right
        have hb := test_some_bounds n q o1 d ht
        simp only [storedDegree, ht]
        omega
  · intro rules oA oB
    induction rules with
    | nil => intro _; rfl
    | cons r rs ih =>
        intro hrules
        have hhead := storedDegree_bit_spec n r (hrules r (by simp)) oA oB
        have htail := ih (fun r' hmem => hrules r' (by simp [hmem]))
        simp only [apply_qualitative_values, satisfaction_comparison] at htail ⊢
        simp only [List.map_cons, List.zipWith_cons_cons]
        rw [hhead, htail]

/-- Witness for C8 at the concrete rule `qW1` (2 tiers) and objects
`objA`, `objB`. -/
theorem C8_sentinel_invariant_witness :
    degreeBit (storedDegree 2 qW1 objA) (storedDegree 2 qW1 objB)
      = specInfinityBit (QualitativeChoiceLogic.test 2 qW1 objA)
          (QualitativeChoiceLogic.test 2 qW1 objB) :=
  (C8_sentinel_invariant 2 qW1 objA objB (by decide)).2.1

theorem one_mem_comparison (a : List Nat) : ∀ b : List Nat,
    (1 ∈ satisfaction_comparison a b ↔
      ∃ i x y, a.get? i = some x ∧ b.get? i = some y ∧ x < y) := by
  induction a with
  | nil => intro b; simp [satisfaction_comparison]
  | cons x xs ih =>
      intro b
      cases b with
      | nil => simp [satisfaction_comparison]
      | cons y ys =>
          simp only [satisfaction_comparison, List.zipWith_cons_cons, List.mem_cons]
          constructor
          · rintro (h | h)
            · exact ⟨0, x, y, rfl, rfl, (degreeBit_eq_one x y).mp h.symm⟩
            · obtain ⟨i, u, v, h1, h2, h3⟩ := (ih ys).mp h
              exact ⟨i + 1, u, v, by simpa using h1, by simpa using h2, h3⟩
          · rintro ⟨i, u, v, h1, h2, h3⟩
            cases i with
            | zero =>
                left
                simp only [List.get?_cons_zero, Option.some.injEq] at h1 h2
                exact ((degreeBit_eq_one x y).mpr (by omega)).symm
            | succ i' =>
                right
                exact (ih ys).mpr ⟨i', u, v, by simpa using h1, by simpa using h2, h3⟩

theorem two_mem_comparison (a : List Nat) : ∀ b : List Nat,
    (2 ∈ satisfaction_comparison a b ↔
      ∃ i x y, a.get? i = some x ∧ b.get? i = some y ∧ y < x) := by
  induction a with
  | nil => intro b; simp [satisfaction_comparison]
  | cons x xs ih =>
      intro b
      cases b with
      | nil => simp [satisfaction_comparison]
      | cons y ys =>
          simp only [satisfaction_comparison, List.zipWith_cons_cons, List.mem_cons]
          constructor
          · rintro (h | h)
            · exact ⟨0, x, y, rfl, rfl, (degreeBit_eq_two x y).mp h.symm⟩
            · obtain ⟨i, u, v, h1, h2, h3⟩ := (ih ys).mp h
              exact ⟨i + 1, u, v, by simpa using h1, by simpa using h2, h3⟩
          · rintro ⟨i, u, v, h1, h2, h3⟩
            cases i with
            | zero =>
                left
                simp only [List.get?_cons_zero, Option.some.injEq] at h1 h2
                exact ((degreeBit_eq_two x y).mpr (by omega)).symm
            | succ i' =>
                right
                exact (ih ys).mpr ⟨i', u, v, by simpa using h1, by simpa using h2, h3⟩

theorem outcome_eq_firstPreferred_iff (a b : List Nat) :
    qualitative_comparison_outcome a b = QualOutcome.firstPreferred ↔
      (1 ∈ satisfaction_comparison a b ∧ 2 ∉ satisfaction_comparison a b) := by
  simp only [qualitative_comparison_outcome]
  split_ifs <;> simp_all

theorem outcome_eq_secondPreferred_iff (a b : List Nat) :
    qualitative_comparison_outcome a b = QualOutcome.secondPreferred ↔
      (2 ∈ satisfaction_comparison a b ∧ 1 ∉ satisfaction_comparison a b) := by
  simp only [qualitative_comparison_outcome]
  split_ifs <;> simp_all

theorem outcome_eq_incomparable_iff (a b : List Nat) :
    qualitative_comparison_outcome a b = QualOutcome.incomparable ↔
      (1 ∈ satisfaction_comparison a b ∧ 2 ∈ satisfaction_comparison a b) := by
  simp only [qualitative_comparison_outcome]
  split_ifs <;> simp_all

theorem outcome_eq_equal_iff (a b : List Nat) :
    qualitative_comparison_outcome a b = QualOutcome.equal ↔
      (1 ∉ satisfaction_comparison a b ∧ 2 ∉ satisfaction_comparison a b) := by
  simp only [qualitative_comparison_outcome]
  split_ifs <;> simp_all

theorem optimal_entry_iff (v w : List Nat) :
    ((if 1 ∈ satisfaction_comparison v w then true
      else if 2 ∈ satisfaction_comparison v w then false else true) = true)
      ↔ qualitative_comparison_outcome v w ≠ QualOutcome.secondPreferred := by
  rw [Ne, outcome_eq_secondPreferred_iff]
  split_ifs <;> simp_all

/-- C6: over equal-length degree vectors, the first object is strictly
preferred iff its degree is strictly lower at some index and strictly
higher at none; mixed wins give incomparability (in particular `[1,3]`
vs `[3,1]`); no differing index gives equality; and an object is
qualitative-optimal iff no row of the stored table strictly dominates
it — incomparable and equal rows never disqualify. -/
theorem C6_qualitative_dominance (a b : List Nat) (hlen : a.length = b.length)
    (v : List Nat) (table : List (List Nat)) :
    (qualitative_comparison_outcome a b = QualOutcome.firstPreferred ↔
       ((∃ i x y, a.get? i = some x ∧ b.get? i = some y ∧ x < y) ∧
        ∀ i x y, a.get? i = some x → b.get? i = some y → ¬ y < x))
  ∧ (qualitative_comparison_outcome a b = QualOutcome.secondPreferred ↔
       ((∃ i x y, a.get? i = some x ∧ b.get? i = some y ∧ y < x) ∧
        ∀ i x y, a.get? i = some x → b.get? i = some y → ¬ x < y))
  ∧ (qualitative_comparison_outcome a b = QualOutcome.incomparable ↔
       ((∃ i x y, a.get? i = some x ∧ b.get? i = some y ∧ x < y) ∧
        (∃ i x y, a.get? i = some x ∧ b.get? i = some y ∧ y < x)))
  ∧ (qualitative_comparison_outcome a b = QualOutcome.equal ↔
       ∀ i x y, a.get? i = some x → b.get? i = some y → x = y)
  ∧ qualitative_comparison_outcome [1, 3] [3, 1] = QualOutcome.incomparable
  ∧ (is_optimal_qualitative_object v table = true ↔
       ∀ w ∈ table, qualitative_comparison_outcome v w ≠ QualOutcome.secondPreferred) := by
  have m1 := one_mem_comparison a b
  have m2 := two_mem_comparison a b
  refine ⟨?_, ?_, ?_, ?_, by decide, ?_⟩
  · rw [outcome_eq_firstPreferred_iff]
    constructor
    · rintro ⟨h1, h2⟩
      exact ⟨m1.mp h1, fun i x y hx hy hlt => h2 (m2.mpr ⟨i, x, y, hx, hy, hlt⟩)⟩
    · rintro ⟨hex, hall⟩
      refine ⟨m1.mpr hex, fun h2 => ?_⟩
      obtain ⟨i, x, y, hx, hy, hlt⟩ := m2.mp h2
      exact hall i x y hx hy hlt
  · rw [outcome_eq_secondPreferred_iff]
    constructor
    · rintro ⟨h2, h1⟩
      exact ⟨m2.mp h2, fun i x y hx hy hlt => h1 (m1.mpr ⟨i, x, y, hx, hy, hlt⟩)⟩
    · rintro ⟨hex, hall⟩
      refine ⟨m2.mpr hex, fun h1 => ?_⟩
      obtain ⟨i, x, y, hx, hy, hlt⟩ := m1.mp h1
      exact hall i x y hx hy hlt
  · rw [outcome_eq_incomparable_iff, m1, m2]
  · rw [outcome_eq_equal_iff]
    constructor
    · rintro ⟨h1, h2⟩ i x y hx hy
      by_contra hne
      rcases Nat.lt_or_ge x y with hlt | hge
      · exact h1 (m1.mpr ⟨i, x, y, hx, hy, hlt⟩)
      · have hlt : y < x := by omega
        exact h2 (m2.mpr ⟨i, x, y, hx, hy, hlt⟩)
    · intro h
      constructor
      · intro h1
        obtain ⟨i, x, y, hx, hy, hlt⟩ := m1.mp h1
        have := h i x y hx hy
        omega
      · intro h2
        obtain ⟨i, x, y, hx, hy, hlt⟩ := m2.mp h2
        have := h i x y hx hy
        omega
  · simp only [is_optimal_qualitative_object, List.all_eq_true]
    constructor
    · intro h w hw
      exact (optimal_entry_iff v w).mp (h w hw)
    · intro h w hw
      exact (optimal_entry_iff v w).mpr (h w hw)

/-- Witness for C6 at the concrete vectors `[1, 3]` and `[3, 1]` and a
one-row table. -/
theorem C6_qualitative_dominance_witness :
    qualitative_comparison_outcome [1, 3] [3, 1] = QualOutcome.incomparable
  ∧ (is_optimal_qualitative_object [1, 3] [[3, 1]] = true ↔
       ∀ w ∈ [[3, 1]], qualitative_comparison_outcome [1, 3] w ≠ QualOutcome.secondPreferred) :=
  ⟨(C6_qualitative_dominance [1, 3] [3, 1] (by decide) [1, 3] [[3, 1]]).2.2.2.2.1,
   (C6_qualitative_dominance [1, 3] [3, 1] (by decide) [1, 3] [[3, 1]]).2.2.2.2.2⟩

/-- C10 counterexample: with fewer than two feasible objects both
exemplifications surface the sampling error of `random.sample`
(Python's uncaught `ValueError`), not a user-facing `EmptySampleError`
report — the source defines no such report and catches nothing. -/
theorem C10_counterexample_sampling_error :
    penalty_exemplification [] (0, 0) = Except.error SampleError.sampleTooLarge
  ∧ qualitative_exemplification [] [] (0, 0) = Except.error SampleError.sampleTooLarge :=
  ⟨rfl, rfl⟩

/-- C10 amended: with fewer than two feasible objects, both pairwise
exemplifications fail with the uncaught sampling error (a crash, not an
`EmptySampleError` report); with at least two, the two compared objects
are drawn without replacement (distinct positions) from the feasible
set. -/
theorem C10_amended_sampling (feas : List Obj) (qvals : List (String × List Nat))
    (c : Nat × Nat) :
    (feas.length < 2 →
        penalty_exemplification feas c = Except.error SampleError.sampleTooLarge
      ∧ qualitative_exemplification feas qvals c
          = Except.error SampleError.sampleTooLarge)
  ∧ (2 ≤ feas.length →
        ∃ i j o1 o2, i < feas.length ∧ j < feas.length ∧ i ≠ j
          ∧ feas.get? i = some o1 ∧ feas.get? j = some o2
          ∧ o1 ∈ feas ∧ o2 ∈ feas
          ∧ penalty_exemplification feas c = Except.ok (penalty_message o1 o2)
          ∧ qualitative_exemplification feas qvals c
              = Except.ok (qualitative_message ((List.lookup o1.name qvals).getD [])
                  ((List.lookup o2.name qvals).getD []) o1.name o2.name)) := by
  constructor
  · intro hlt
    constructor
    · rw [penalty_exemplification, if_pos hlt]
    · rw [qualitative_exemplification, if_pos hlt]
  · intro hge
    have hi : sampleFst feas.length c < feas.length :=
      Nat.mod_lt _ (by omega)
    have hj : sampleSnd feas.length c < feas.length := by
      rw [sampleSnd]
      have hj0 : c.2 % (feas.length - 1) < feas.length - 1 :=
        Nat.mod_lt _ (by omega)
      split_ifs <;> omega
    have hij : sampleFst feas.length c ≠ sampleSnd feas.length c := by
      rw [sampleFst, sampleSnd]
      split_ifs with h <;> omega
    obtain ⟨o1, h1⟩ : ∃ o1, feas.get? (sampleFst feas.length c) = some o1 :=
      ⟨feas.get ⟨_, hi⟩, List.get?_eq_get hi⟩
    obtain ⟨o2, h2⟩ : ∃ o2, feas.get? (sampleSnd feas.length c) = some o2 :=
      ⟨feas.get ⟨_, hj⟩, List.get?_eq_get hj⟩
    refine ⟨sampleFst feas.length c, sampleSnd feas.length c, o1, o2, hi, hj, hij,
      h1, h2, List.get?_mem h1, List.get?_mem h2, ?_, ?_⟩
    · rw [penalty_exemplification, if_neg (by omega)]
      rw [h1, h2]
    · rw [qualitative_exemplification, if_neg (by omega)]
      rw [h1, h2]

/-- Witness for C10 amended: the empty feasible set errors, and the
two-object feasible set `[objA, objB]` yields a sampled distinct
pair. -/
theorem C10_amended_sampling_witness :
    (penalty_exemplification [] (0, 0) = Except.error SampleError.sampleTooLarge
      ∧ qualitative_exemplification [] [] (0, 0) = Except.error SampleError.sampleTooLarge)
  ∧ ∃ i j o1 o2, i < [objA, objB].length ∧ j < [objA, objB].length ∧ i ≠ j
      ∧ [objA, objB].get? i = some o1 ∧ [objA, objB].get? j = some o2
      ∧ o1 ∈ [objA, objB] ∧ o2 ∈ [objA, objB]
      ∧ penalty_exemplification [objA, objB] (0, 0) = Except.ok (penalty_message o1 o2)
      ∧ qualitative_exemplification [objA, objB] [] (0, 0)
          = Except.ok (qualitative_message ((List.lookup o1.name []).getD [])
              ((List.lookup o2.name []).getD []) o1.name o2.name) :=
  ⟨(C10_amended_sampling [] [] (0, 0)).1 (by decide),
   (C10_amended_sampling [objA, objB] [] (0, 0)).2 (by decide)⟩
